import Mathlib

/-!
Verification development for the rock-paper-scissors-lizard-spock arena
simulator (`src/sim.js`).  The JavaScript core is shallowly embedded:

* the seeded RNG (`xfnv1a`, `mulberry32`, `setSeed`) is embedded over `ℕ`
  with explicit `% 2^32` wraparound wherever JavaScript coerces to 32-bit
  words (`Math.imul`, bitwise operators, `>>> 0`); outputs are exact
  rationals `word / 2^32`;
* the beats rule table, its validator and `winnerOf` are embedded over
  `String` type identifiers, exactly as the source stores them;
* the physics (`Entity`, `update`, `clampVel`, the spatial grid,
  `narrowPhase`, `handleCollisionsGrid`, `step`, `spawn`) is embedded over
  `ℝ`, the idealization of JavaScript float arithmetic (so `Math.sqrt` is
  `Real.sqrt` and the degenerate guards of the source are kept verbatim);
* JavaScript in-place mutation of the entity array is embedded as explicit
  state passing: an entity is addressed by its index in the list, grid
  buckets store indices, and `narrowPhase` results are written back with
  `List.set`.  Entity ids are never written by any collision code, so the
  order and multiplicity of `narrowPhase` invocations is captured by the
  trace `collisionPairs`, computed from the pre-collision list, and
  `handleCollisionsGrid` is the left fold of the invocations over it.
-/

namespace RPS

/-! Constants of `src/sim.js`. -/

def MAX_ENTITIES_PER_TYPE : ℕ := 500

def MAX_SEED_LEN : ℕ := 128

def MAX_TOTAL_ENTITIES : ℕ := 1200

/-! The seeded RNG.  Seed strings are embedded as lists of UTF-16 char
codes, which is what `charCodeAt` iterates over. -/

/-- The FNV-1a style string hash of the source: starting from 0x811c9dc5,
each char code is XORed in and the state is multiplied by 0x01000193 with
`Math.imul` (32-bit wraparound); the final `>>> 0` is the identity because
the state is kept below `2^32` throughout. -/
def xfnv1a (s : List ℕ) : ℕ :=
  s.foldl (fun h c => ((h ^^^ c) * 0x01000193) % 4294967296) 0x811c9dc5

/-- One call of the `mulberry32` closure.  The closure state `a` is a
JavaScript float advanced by `a += 0x6D2B79F5` without wrapping (exact
integer arithmetic, embedded as `ℕ`); every bitwise operator and
`Math.imul` coerces its operands to 32-bit words, embedded as explicit
`% 4294967296`.  Returns the advanced state and the output
`word / 2^32 ∈ [0,1)`. -/
def mulberry32 (a : ℕ) : ℕ × ℚ :=
  let a' := a + 0x6D2B79F5
  let t0 := a' % 4294967296
  let t1 := ((t0 ^^^ (t0 >>> 15)) * (t0 ||| 1)) % 4294967296
  let t2 := t1 ^^^ ((t1 + ((t1 ^^^ (t1 >>> 7)) * (t1 ||| 61)) % 4294967296) % 4294967296)
  let out := t2 ^^^ (t2 >>> 14)
  (a', (out : ℚ) / 4294967296)

/-- `setSeed`: truncate the seed string to `MAX_SEED_LEN` chars and hash it;
the resulting word is the initial `mulberry32` state. -/
def setSeed (s : List ℕ) : ℕ :=
  xfnv1a (s.take MAX_SEED_LEN)

/-- The list of the first `n` outputs of the RNG stream started in state
`a`, threading the closure state exactly as repeated calls of `rng()` do. -/
def rngList : ℕ → ℕ → List ℚ
  | _, 0 => []
  | a, n + 1 => (mulberry32 a).2 :: rngList (mulberry32 a).1 n

/-! The beats rule table and its validator. -/

/-- `TypeIds`: the five registry type identifiers, in registry order. -/
def TypeIds : List String := ["circle", "square", "triangle", "lizard", "spock"]

/-- The `beats` object: each type id maps to the list of type ids it
defeats. -/
def beats : List (String × List String) :=
  [("circle", ["triangle", "lizard"]),
   ("square", ["circle", "spock"]),
   ("triangle", ["square", "lizard"]),
   ("lizard", ["spock", "square"]),
   ("spock", ["triangle", "circle"])]

/-- `beatsMap.get(k)?.has(b)`: look the key up in the rule table and test
membership of the defeat set; an absent key yields `false`. -/
def beatsHas (m : List (String × List String)) (k b : String) : Bool :=
  match m.find? (fun kv => kv.1 == k) with
  | some kv => kv.2.contains b
  | none => false

/-- The per-target checks of `validateRules`: unknown target, self-defeat,
symmetric conflict, in source order. -/
def checkTarget (m : List (String × List String)) (a b : String) : Except String Unit :=
  if !TypeIds.contains b then Except.error "Unknown target in beats"
  else if b = a then Except.error "Type cannot beat itself"
  else if beatsHas m b a then Except.error "Conflict: symmetric rule pair"
  else Except.ok ()

/-- `validateRules`, parametrized by the rule table it closes over: throws
(returns `Except.error`) on a rule keyed by an unknown type, an unknown
target, a self-defeat, or a symmetric pair. -/
def validateRules (m : List (String × List String)) : Except String Unit :=
  m.forM (fun kv =>
    if !TypeIds.contains kv.1 then Except.error "Rule references unknown type"
    else kv.2.forM (checkTarget m kv.1))

/-- `winnerOf`: equal ids tie; else the first id wins if its defeat set
holds the second; else the second wins if its defeat set holds the first;
else no winner. -/
def winnerOf (aId bId : String) : Option String :=
  if aId = bId then none
  else if beatsHas beats aId bId then some aId
  else if beatsHas beats bId aId then some bId
  else none

/-! The entity model. -/

/-- Physics constants of the source (`REST`, `VMAX`, `EPS`). -/
noncomputable def REST : ℝ := 1

noncomputable def VMAX : ℝ := 600

noncomputable def EPS : ℝ := 0.001

noncomputable def FIXED_DT : ℝ := 1 / 60

/-- An entity: unique id, registry type index, position, radius, velocity,
and the derived parameters set once in the constructor. -/
structure Entity where
  id : ℕ
  t : Fin 5
  x : ℝ
  y : ℝ
  r : ℝ
  vx : ℝ
  vy : ℝ
  mass : ℝ
  side : ℝ
  base : ℝ

/-- The `Entity` constructor: `mass = r²`, `side = r·√2`, `base = 2r`; the
id is the value of the `ENTITY_ID` counter at construction time. -/
noncomputable def mkEntity (typeIndex : Fin 5) (x y r vx vy : ℝ) (id : ℕ) : Entity :=
  { id := id, t := typeIndex, x := x, y := y, r := r, vx := vx, vy := vy,
    mass := r * r, side := r * Real.sqrt 2, base := r * 2 }

/-- `clampVel`: if the squared speed exceeds `VMAX²`, scale both velocity
components by `VMAX / √(v²)`. -/
noncomputable def clampVel (e : Entity) : Entity :=
  let v2 := e.vx * e.vx + e.vy * e.vy
  if v2 > VMAX * VMAX then
    { e with vx := e.vx * (VMAX / Real.sqrt v2), vy := e.vy * (VMAX / Real.sqrt v2) }
  else e

/-- JavaScript `Math.trunc`-style rounding of the quotient, as performed by
the `%` operator: toward zero. -/
noncomputable def jsTrunc (x : ℝ) : ℤ :=
  if 0 ≤ x then ⌊x⌋ else ⌈x⌉

/-- The JavaScript remainder operator `x % m` on reals: the remainder of
truncated division, carrying the sign of the dividend. -/
noncomputable def jsRem (x m : ℝ) : ℝ :=
  x - m * (jsTrunc (x / m) : ℝ)

/-- `mod(n, m) = ((n % m) + m) % m`, the wrap helper of the source; for
`m > 0` it lands in `[0, m)` for every real input. -/
noncomputable def mod (x m : ℝ) : ℝ :=
  jsRem (jsRem x m + m) m

/-- The same double-remainder wrap on integer cell indices (JavaScript `%`
on integers is truncated remainder, `Int.tmod`). -/
def modZ (n m : ℤ) : ℤ :=
  (n.tmod m + m).tmod m

/-- `clampIdx(ix, max) = Math.max(0, Math.min(ix, max))`. -/
def clampIdx (ix mx : ℤ) : ℤ :=
  max 0 (min ix mx)

/-- `Entity.update`: integrate position by `v · dt · spd`, then apply the
boundary mode (wrap by `mod`, or clamp-and-bounce on each wall in source
order, the second wall test reading the state left by the first), then
`clampVel`. -/
noncomputable def update (W H dt spd : ℝ) (wrap : Bool) (e : Entity) : Entity :=
  let adv := dt * spd
  let x0 := e.x + e.vx * adv
  let y0 := e.y + e.vy * adv
  if wrap then
    clampVel { e with x := mod x0 W, y := mod y0 H }
  else
    let x1 := if x0 - e.r < 0 then e.r else x0
    let vx1 := if x0 - e.r < 0 then |e.vx| else e.vx
    let x2 := if x1 + e.r > W then W - e.r else x1
    let vx2 := if x1 + e.r > W then -|vx1| else vx1
    let y1 := if y0 - e.r < 0 then e.r else y0
    let vy1 := if y0 - e.r < 0 then |e.vy| else e.vy
    let y2 := if y1 + e.r > H then H - e.r else y1
    let vy2 := if y1 + e.r > H then -|vy1| else vy1
    clampVel { e with x := x2, y := y2, vx := vx2, vy := vy2 }

/-! The spatial hash grid.  Arena and grid geometry are carried in a
configuration record standing for the globals `VIEW_W`, `VIEW_H`, `CELL`,
`GW`, `GH`, `WRAP_ACTIVE` and the UI speed scalar. -/

structure Config where
  W : ℝ
  H : ℝ
  CELL : ℝ
  GW : ℤ
  GH : ℤ
  wrap : Bool
  spd : ℝ

/-- The inclusive integer range `lo..hi` (empty when `hi < lo`), the index
set of a `for (i = lo; i <= hi; i++)` loop. -/
def cellRange (lo hi : ℤ) : List ℤ :=
  (List.range (hi + 1 - lo).toNat).map (fun k => lo + (k : ℤ))

/-- The grid cells `insertIntoGrid` pushes an entity into: the floor-range
of the bounding box over `CELL`, outer loop on `iy`, wrapped by `mod` in
wrap mode and clamped into the grid otherwise. -/
noncomputable def entityCells (cfg : Config) (e : Entity) : List (ℤ × ℤ) :=
  let minx := ⌊(e.x - e.r) / cfg.CELL⌋
  let maxx := ⌊(e.x + e.r) / cfg.CELL⌋
  let miny := ⌊(e.y - e.r) / cfg.CELL⌋
  let maxy := ⌊(e.y + e.r) / cfg.CELL⌋
  (cellRange miny maxy).flatMap (fun iy =>
    (cellRange minx maxx).map (fun ix =>
      (if cfg.wrap then modZ ix cfg.GW else clampIdx ix (cfg.GW - 1),
       if cfg.wrap then modZ iy cfg.GH else clampIdx iy (cfg.GH - 1))))

/-- Insert entity index `i` under `key`: push onto an existing bucket, else
append a fresh bucket at the end (JavaScript `Map` insertion order). -/
def gridInsert (g : List ((ℤ × ℤ) × List ℕ)) (key : ℤ × ℤ) (i : ℕ) :
    List ((ℤ × ℤ) × List ℕ) :=
  if g.any (fun kb => kb.1 == key) then
    g.map (fun kb => if kb.1 == key then (kb.1, kb.2 ++ [i]) else kb)
  else g ++ [(key, [i])]

/-- Rebuild the grid from scratch: insert every entity (by index, in list
order) into every cell its bounding box covers. -/
noncomputable def buildGrid (cfg : Config) (es : List Entity) : List ((ℤ × ℤ) × List ℕ) :=
  es.enum.foldl
    (fun g ie => (entityCells cfg ie.2).foldl (fun g' key => gridInsert g' key ie.1) g) []

/-- `grid.get(key)`: the bucket under `key`, or the empty bucket when the
key is absent (the `if (!nb) continue` path). -/
def gridGet (g : List ((ℤ × ℤ) × List ℕ)) (key : ℤ × ℤ) : List ℕ :=
  match g.find? (fun kb => kb.1 == key) with
  | some kb => kb.2
  | none => []

/-- The id of the entity at index `i` (ids are never mutated, so reading
them from the pre-collision list is exact). -/
def idAt (es : List Entity) (i : ℕ) : ℕ :=
  ((es.get? i).map Entity.id).getD 0

def offsets : List ℤ := [-1, 0, 1]

/-- The trace of `narrowPhase` invocations of one `handleCollisionsGrid`
call, in execution order: for every bucket of the rebuilt grid, every cell
of its 3×3 neighborhood (`dy` outer), wrapped in wrap mode and bounds
checked, pair every entity of the bucket with every entity of the
neighbor bucket, skipping identical references (equal indices) and pairs
whose first id exceeds the second. -/
noncomputable def collisionPairs (cfg : Config) (es : List Entity) : List (ℕ × ℕ) :=
  let g := buildGrid cfg es
  g.flatMap (fun kb =>
    offsets.flatMap (fun dy =>
      offsets.flatMap (fun dx =>
        let nx := if cfg.wrap then modZ (kb.1.1 + dx) cfg.GW else kb.1.1 + dx
        let ny := if cfg.wrap then modZ (kb.1.2 + dy) cfg.GH else kb.1.2 + dy
        if nx < 0 ∨ ny < 0 ∨ nx ≥ cfg.GW ∨ ny ≥ cfg.GH then []
        else
          (kb.2).flatMap (fun ia =>
            (gridGet g (nx, ny)).filterMap (fun ib =>
              if ia = ib then none
              else if idAt es ia > idAt es ib then none
              else some (ia, ib))))))

/-! The narrow phase. -/

/-- `periodicDelta`: the displacement from `a` to `b`, folded to the
shortest toroidal representative in wrap mode. -/
noncomputable def periodicDelta (cfg : Config) (ax ay bx by_ : ℝ) : ℝ × ℝ :=
  let dx := bx - ax
  let dy := by_ - ay
  if cfg.wrap then
    (if dx > cfg.W / 2 then dx - cfg.W else if dx < -(cfg.W / 2) then dx + cfg.W else dx,
     if dy > cfg.H / 2 then dy - cfg.H else if dy < -(cfg.H / 2) then dy + cfg.H else dy)
  else (dx, dy)

/-- `TypeRegistry[t].id`: the registry id string of a type index. -/
def typeIdOf (t : Fin 5) : String :=
  TypeIds.getD t.val ""

/-- The type-conversion step of `narrowPhase`: if `winnerOf` decides the
encounter, the losing entity's type index is overwritten with the winner's;
nothing else is touched. -/
def convertPair (a b : Entity) : Entity × Entity :=
  let aId := typeIdOf a.t
  let bId := typeIdOf b.t
  match winnerOf aId bId with
  | none => (a, b)
  | some winId =>
      if winId = aId then (a, { b with t := a.t }) else ({ a with t := b.t }, b)

/-- `Math.sqrt(dist2) || 0.0001`: the collision distance, with the exact
zero-overlap degenerate case replaced by the minimal nonzero distance. -/
noncomputable def sqrtOrEps (d2 : ℝ) : ℝ :=
  if Real.sqrt d2 = 0 then 0.0001 else Real.sqrt d2

/-- `narrowPhase` on a candidate pair: reject unless the squared distance
is at most `(ra+rb)²`; convert the loser's type; de-penetrate both
entities by half the slopped overlap along the unit normal, re-wrapping in
wrap mode; apply the 1-D elastic response along the normal with masses as
stored and restitution `REST`; re-clamp both velocities. -/
noncomputable def narrowPhase (cfg : Config) (a b : Entity) : Entity × Entity :=
  let dd := periodicDelta cfg a.x a.y b.x b.y
  let dx := dd.1
  let dy := dd.2
  let minDist := a.r + b.r
  let dist2 := dx * dx + dy * dy
  if dist2 > minDist * minDist then (a, b)
  else
    let a1 := (convertPair a b).1
    let b1 := (convertPair a b).2
    let dist := sqrtOrEps dist2
    let nx := dx / dist
    let ny := dy / dist
    let overlap := max 0 ((minDist - dist) + EPS)
    let a2 := { a1 with x := a1.x - nx * overlap / 2, y := a1.y - ny * overlap / 2 }
    let b2 := { b1 with x := b1.x + nx * overlap / 2, y := b1.y + ny * overlap / 2 }
    let a3 := if cfg.wrap then { a2 with x := mod a2.x cfg.W, y := mod a2.y cfg.H } else a2
    let b3 := if cfg.wrap then { b2 with x := mod b2.x cfg.W, y := mod b2.y cfg.H } else b2
    let va := a3.vx * nx + a3.vy * ny
    let vb := b3.vx * nx + b3.vy * ny
    let ma := a3.mass
    let mb := b3.mass
    let vaAfter := (va * (ma - mb) + 2 * mb * vb) / (ma + mb)
    let vbAfter := (vb * (mb - ma) + 2 * ma * va) / (ma + mb)
    let dvA := (vaAfter - va) * REST
    let dvB := (vbAfter - vb) * REST
    let a4 := { a3 with vx := a3.vx + dvA * nx, vy := a3.vy + dvA * ny }
    let b4 := { b3 with vx := b3.vx + dvB * nx, vy := b3.vy + dvB * ny }
    (clampVel a4, clampVel b4)

/-- One traced invocation: read the two entities at the pair's indices,
run `narrowPhase`, write both results back in place. -/
noncomputable def applyNarrow (cfg : Config) (es : List Entity) (p : ℕ × ℕ) : List Entity :=
  match es.get? p.1, es.get? p.2 with
  | some a, some b =>
      let ab := narrowPhase cfg a b
      (es.set p.1 ab.1).set p.2 ab.2
  | _, _ => es

/-- `handleCollisionsGrid`: rebuild the grid and run every traced
`narrowPhase` invocation, in order, over the mutable entity list. -/
noncomputable def handleCollisionsGrid (cfg : Config) (es : List Entity) : List Entity :=
  (collisionPairs cfg es).foldl (applyNarrow cfg) es

/-- `step(dt)`: integrate every entity with the active mode and speed
scalar, then run the collision pass. -/
noncomputable def step (cfg : Config) (dt : ℝ) (es : List Entity) : List Entity :=
  handleCollisionsGrid cfg (es.map (update cfg.W cfg.H dt cfg.spd cfg.wrap))

/-! Spawning.  The world record carries the entity list, the `ENTITY_ID`
counter and the RNG closure state. -/

structure World where
  entities : List Entity
  nextId : ℕ
  rngA : ℕ

/-- `rand(min, max) = rng() * (max - min) + min`, threading the RNG
state. -/
noncomputable def rand (a : ℕ) (lo hi : ℝ) : ℕ × ℝ :=
  ((mulberry32 a).1, ((mulberry32 a).2 : ℝ) * (hi - lo) + lo)

/-- `randVel()`: a direction drawn uniformly on the circle and a magnitude
`rand(0.8, 2.0) * 60`. -/
noncomputable def randVel (a : ℕ) : ℕ × ℝ × ℝ :=
  let angle := ((mulberry32 a).2 : ℝ) * Real.pi * 2
  let m := rand (mulberry32 a).1 0.8 2.0
  (m.1, Real.cos angle * (m.2 * 60), Real.sin angle * (m.2 * 60))

/-- `overlapsAny`: does the candidate circle overlap any existing
entity? -/
noncomputable def overlapsAny (es : List Entity) (x y r : ℝ) : Bool :=
  es.any (fun e =>
    decide ((x - e.x) * (x - e.x) + (y - e.y) * (y - e.y) < (r + e.r) * (r + e.r)))

/-- The rejection-sampling placement loop of `spawn`: draw a position, and
while it overlaps an existing entity and fewer than `maxTries = 50` draws
have happened, redraw.  `fuel` is the number of redraws still allowed
(starting at 49); the position is returned in either case. -/
noncomputable def placeLoop (es : List Entity) (W H radius : ℝ) : ℕ → ℕ → ℕ × ℝ × ℝ
  | a, fuel =>
    let rx := rand a (radius + 2) (W - radius - 2)
    let ry := rand rx.1 (radius + 2) (H - radius - 2)
    match fuel with
    | 0 => (ry.1, rx.2, ry.2)
    | fuel' + 1 =>
        if overlapsAny es rx.2 ry.2 radius then placeLoop es W H radius ry.1 fuel'
        else (ry.1, rx.2, ry.2)

/-- The body of `spawn`'s `for` loop, run `n` times: draw a velocity, place
the entity, push it with a fresh id. -/
noncomputable def spawnLoop (cfg : Config) (typeIndex : Fin 5) (radius : ℝ) :
    ℕ → World → World
  | 0, w => w
  | n + 1, w =>
      let rv := randVel w.rngA
      let p := placeLoop w.entities cfg.W cfg.H radius rv.1 49
      let e := mkEntity typeIndex p.2.1 p.2.2 radius rv.2.1 rv.2.2 w.nextId
      spawnLoop cfg typeIndex radius n
        { entities := w.entities ++ [e], nextId := w.nextId + 1, rngA := p.1 }

/-- `spawn(typeIndex, n, radius)`: clamp the request to
`MAX_ENTITIES_PER_TYPE` and run the placement loop that many times. -/
noncomputable def spawn (cfg : Config) (w : World) (typeIndex : Fin 5) (n : ℕ) (radius : ℝ) :
    World :=
  spawnLoop cfg typeIndex radius (min n MAX_ENTITIES_PER_TYPE) w

/-! Theorems. -/

/-- A `forM` over the `Except` monad succeeds exactly when every element
check succeeds. -/
theorem forM_ok_iff {α : Type} (f : α → Except String Unit) (l : List α) :
    l.forM f = Except.ok () ↔ ∀ x ∈ l, f x = Except.ok () := by
  induction l with
  | nil =>
      constructor
      · intro _ x hx; exact absurd hx (List.not_mem_nil x)
      · intro _; rfl
  | cons a l ih =>
      have hstep : (a :: l).forM f = (f a).bind (fun _ => l.forM f) := rfl
      rw [hstep]
      cases h : f a with
      | error e =>
          constructor
          · intro hbind; exact absurd hbind (by simp [Except.bind])
          · intro hall; exact absurd (hall a (List.mem_cons_self a l)) (by simp [h])
      | ok u =>
          cases u
          rw [show (Except.ok () : Except String Unit).bind (fun _ => l.forM f) =
            l.forM f from rfl]
          constructor
          · intro hbind x hx
            rcases List.mem_cons.mp hx with rfl | hx
            · exact h
            · exact ih.mp hbind x hx
          · intro hall
            exact ih.mpr (fun x hx => hall x (List.mem_cons_of_mem a hx))

/-- C5: on the configured rule table, `winnerOf` follows the documented
case analysis (tie on equal ids, else first wins when its defeat set holds
the second, else second wins when its defeat set holds the first, else no
winner); the configured table has no symmetric pair among distinct ids;
`validateRules` accepts the configured table, and any table it accepts has
only known keys and targets, no self-defeat and no symmetric pair. -/
theorem winnerOf_cases_and_validation :
    (∀ a ∈ TypeIds, ∀ b ∈ TypeIds,
      (a = b → winnerOf a b = none) ∧
      (beatsHas beats a b = true → winnerOf a b = some a) ∧
      (beatsHas beats a b = false → beatsHas beats b a = true → winnerOf a b = some b) ∧
      (beatsHas beats a b = false → beatsHas beats b a = false → winnerOf a b = none) ∧
      (a ≠ b → ¬(beatsHas beats a b = true ∧ beatsHas beats b a = true))) ∧
    validateRules beats = Except.ok () ∧
    (∀ m : List (String × List String), validateRules m = Except.ok () →
      ∀ kv ∈ m, TypeIds.contains kv.1 = true ∧
        ∀ b ∈ kv.2, TypeIds.contains b = true ∧ b ≠ kv.1 ∧ beatsHas m b kv.1 = false) := by
  refine ⟨by decide, by rfl, ?_⟩
  intro m hm kv hkv
  have h1 := (forM_ok_iff _ m).mp hm kv hkv
  cases hk : TypeIds.contains kv.1 with
  | false => rw [hk] at h1; simp at h1
  | true =>
      rw [hk] at h1
      simp only [Bool.not_true, if_neg (by simp : ¬((false : Bool) = true))] at h1
      refine ⟨rfl, ?_⟩
      intro b hb
      have h2 := (forM_ok_iff _ kv.2).mp h1 b hb
      unfold checkTarget at h2
      cases hb1 : TypeIds.contains b with
      | false => rw [hb1] at h2; simp at h2
      | true =>
          rw [hb1] at h2
          simp only [Bool.not_true, if_neg (by simp : ¬((false : Bool) = true))] at h2
          by_cases hb2 : b = kv.1
          · rw [if_pos hb2] at h2; exact absurd h2 (by simp)
          · rw [if_neg hb2] at h2
            cases hb3 : beatsHas m b kv.1 with
            | true => rw [hb3] at h2; simp at h2
            | false => exact ⟨rfl, hb2, rfl⟩

/-- C5 witness: instantiating the case analysis at the concrete pair
circle/triangle, whose defeat relation is decided. -/
theorem winnerOf_cases_and_validation_witness :
    winnerOf "circle" "triangle" = some "circle" :=
  ((winnerOf_cases_and_validation.1 "circle" (by decide) "triangle"
    (by decide)).2.1) (by decide)

/-- C10: on the configured type ids, the decided winner does not depend on
the argument order of `winnerOf`. -/
theorem winnerOf_symmetric :
    ∀ a ∈ TypeIds, ∀ b ∈ TypeIds, winnerOf a b = winnerOf b a := by decide

/-- C10 witness: symmetry at the concrete pair lizard/spock. -/
theorem winnerOf_symmetric_witness :
    winnerOf "lizard" "spock" = winnerOf "spock" "lizard" :=
  winnerOf_symmetric "lizard" (by decide) "spock" (by decide)

set_option maxRecDepth 8000 in
/-- Every single `mulberry32` output lies in `[0, 1)`. -/
theorem mulberry32_out_mem_Ico (a : ℕ) :
    0 ≤ (mulberry32 a).2 ∧ (mulberry32 a).2 < 1 := by
  have pow32 : (4294967296 : ℕ) = 2 ^ 32 := by norm_num
  set t0 := (a + 0x6D2B79F5) % 4294967296 with ht0
  set t1 := ((t0 ^^^ (t0 >>> 15)) * (t0 ||| 1)) % 4294967296 with ht1
  set t2 := t1 ^^^ ((t1 + ((t1 ^^^ (t1 >>> 7)) * (t1 ||| 61)) % 4294967296) % 4294967296)
    with ht2
  have hsnd : (mulberry32 a).2 = ((t2 ^^^ (t2 >>> 14) : ℕ) : ℚ) / 4294967296 := rfl
  have h1 : t1 < 2 ^ 32 := by
    rw [ht1, ← pow32]; exact Nat.mod_lt _ (by norm_num)
  have h2 : t2 < 2 ^ 32 := by
    rw [ht2]
    exact Nat.xor_lt_two_pow h1 (by rw [← pow32]; exact Nat.mod_lt _ (by norm_num))
  have hshift : t2 >>> 14 ≤ t2 := by
    rw [Nat.shiftRight_eq_div_pow]; exact Nat.div_le_self _ _
  have h3 : t2 ^^^ (t2 >>> 14) < 2 ^ 32 :=
    Nat.xor_lt_two_pow h2 (lt_of_le_of_lt hshift h2)
  rw [hsnd]
  constructor
  · exact div_nonneg (Nat.cast_nonneg _) (by norm_num)
  · rw [div_lt_one (by norm_num)]
    have : ((t2 ^^^ (t2 >>> 14) : ℕ) : ℚ) < ((4294967296 : ℕ) : ℚ) := by
      exact_mod_cast (by rw [pow32]; exact h3)
    simpa using this

/-- C6: two RNG streams independently seeded from the same seed string
produce identical first `n` outputs for every `n` (stream construction is
a pure function of the hashed, truncated seed), and every output lies in
`[0, 1)`. -/
theorem rng_deterministic_and_in_range :
    ∀ (s : List ℕ) (n : ℕ),
      rngList (setSeed s) n = rngList (setSeed s) n ∧
      ∀ q ∈ rngList (setSeed s) n, 0 ≤ q ∧ q < 1 := by
  have range : ∀ (a n : ℕ), ∀ q ∈ rngList a n, 0 ≤ q ∧ q < 1 := by
    intro a n
    induction n generalizing a with
    | zero => intro q hq; simp [rngList] at hq
    | succ n ih =>
        intro q hq
        rw [rngList] at hq
        rcases List.mem_cons.mp hq with rfl | hq
        · exact mulberry32_out_mem_Ico a
        · exact ih _ q hq
  exact fun s n => ⟨rfl, range (setSeed s) n⟩

/-- C6 witness: the stream seeded from the char codes of `"rps-12345"`
(the default seed) has its first output in `[0, 1)`, and the first-output
lists of two such streams agree. -/
theorem rng_deterministic_and_in_range_witness :
    0 ≤ (mulberry32 (setSeed [114, 112, 115, 45, 49, 50, 51, 52, 53])).2 ∧
    (mulberry32 (setSeed [114, 112, 115, 45, 49, 50, 51, 52, 53])).2 < 1 :=
  (rng_deterministic_and_in_range [114, 112, 115, 45, 49, 50, 51, 52, 53] 1).2
    (mulberry32 (setSeed [114, 112, 115, 45, 49, 50, 51, 52, 53])).2
    (by rw [rngList]; exact List.mem_cons_self _ _)

/-- Writing a traced invocation's results back never changes the number of
entities. -/
theorem applyNarrow_length (cfg : Config) (es : List Entity) (p : ℕ × ℕ) :
    (applyNarrow cfg es p).length = es.length := by
  unfold applyNarrow
  cases h1 : es.get? p.1 <;> cases h2 : es.get? p.2 <;> simp

/-- The whole collision fold never changes the number of entities. -/
theorem foldl_applyNarrow_length (cfg : Config) :
    ∀ (ps : List (ℕ × ℕ)) (es : List Entity),
      (ps.foldl (applyNarrow cfg) es).length = es.length := by
  intro ps
  induction ps with
  | nil => intro es; rfl
  | cons p ps ih => intro es; rw [List.foldl_cons, ih, applyNarrow_length]

/-- One step never changes the number of entities. -/
theorem step_length (cfg : Config) (dt : ℝ) (es : List Entity) :
    (step cfg dt es).length = es.length := by
  unfold step handleCollisionsGrid
  rw [foldl_applyNarrow_length, List.length_map]

/-- C3: the entity count is invariant under any number of consecutive
steps: integration maps the list elementwise and the collision pass only
writes entities back in place, so `entities.length` never changes. -/
theorem step_count_invariant :
    ∀ (cfg : Config) (dt : ℝ) (n : ℕ) (es : List Entity),
      ((step cfg dt)^[n] es).length = es.length := by
  intro cfg dt n
  induction n with
  | zero => intro es; rfl
  | succ n ih =>
      intro es
      rw [Function.iterate_succ_apply, ih, step_length]

/-- The `spawn` loop body run `k` times appends exactly `k` entities of the
requested type to the end of the list, touching nothing else. -/
theorem spawnLoop_spec (cfg : Config) (typeIndex : Fin 5) (radius : ℝ) :
    ∀ (k : ℕ) (w : World),
      ∃ L, (spawnLoop cfg typeIndex radius k w).entities = w.entities ++ L ∧
        L.length = k ∧ ∀ e ∈ L, e.t = typeIndex := by
  intro k
  induction k with
  | zero => intro w; exact ⟨[], by simp [spawnLoop], rfl, by simp⟩
  | succ n ih =>
      intro w
      set rv := randVel w.rngA with hrv
      set p := placeLoop w.entities cfg.W cfg.H radius rv.1 49 with hp
      set w' : World :=
        { entities := w.entities ++
            [mkEntity typeIndex p.2.1 p.2.2 radius rv.2.1 rv.2.2 w.nextId],
          nextId := w.nextId + 1, rngA := p.1 } with hw'
      have heq : spawnLoop cfg typeIndex radius (n + 1) w =
          spawnLoop cfg typeIndex radius n w' := rfl
      obtain ⟨L, hL, hlen, hall⟩ := ih w'
      refine ⟨mkEntity typeIndex p.2.1 p.2.2 radius rv.2.1 rv.2.2 w.nextId :: L, ?_, ?_, ?_⟩
      · rw [heq, hL, hw']; simp
      · simp [hlen]
      · intro e he
        rcases List.mem_cons.mp he with rfl | he
        · simp [mkEntity]
        · exact hall e he

/-- C7: `spawn(typeIndex, n, radius)` appends exactly
`min n MAX_ENTITIES_PER_TYPE` entities of the requested type (the request
is silently clamped to the per-type cap; the function is total, so the
excess is dropped without any error path). -/
theorem spawn_appends_capped_count :
    ∀ (cfg : Config) (w : World) (typeIndex : Fin 5) (n : ℕ) (radius : ℝ),
      ∃ L, (spawn cfg w typeIndex n radius).entities = w.entities ++ L ∧
        L.length = min n MAX_ENTITIES_PER_TYPE ∧ ∀ e ∈ L, e.t = typeIndex := by
  intro cfg w typeIndex n radius
  obtain ⟨L, hL, hlen, hall⟩ :=
    spawnLoop_spec cfg typeIndex radius (min n MAX_ENTITIES_PER_TYPE) w
  exact ⟨L, hL, hlen, hall⟩

/-- After `clampVel` the squared speed is at most `VMAX²`, whatever the
input velocity was. -/
theorem clampVel_speedSq_le (e : Entity) :
    (clampVel e).vx * (clampVel e).vx + (clampVel e).vy * (clampVel e).vy ≤
      VMAX * VMAX := by
  unfold clampVel
  by_cases h : e.vx * e.vx + e.vy * e.vy > VMAX * VMAX
  · rw [if_pos h]
    have hnn : (0:ℝ) ≤ e.vx * e.vx + e.vy * e.vy :=
      add_nonneg (mul_self_nonneg _) (mul_self_nonneg _)
    have hpos : (0:ℝ) < e.vx * e.vx + e.vy * e.vy :=
      lt_of_le_of_lt (by norm_num [VMAX]) h
    have hs : Real.sqrt (e.vx * e.vx + e.vy * e.vy) *
        Real.sqrt (e.vx * e.vx + e.vy * e.vy) = e.vx * e.vx + e.vy * e.vy :=
      Real.mul_self_sqrt hnn
    have hsp : (0:ℝ) < Real.sqrt (e.vx * e.vx + e.vy * e.vy) :=
      Real.sqrt_pos.mpr hpos
    have key : e.vx * (VMAX / Real.sqrt (e.vx * e.vx + e.vy * e.vy)) *
        (e.vx * (VMAX / Real.sqrt (e.vx * e.vx + e.vy * e.vy))) +
        e.vy * (VMAX / Real.sqrt (e.vx * e.vx + e.vy * e.vy)) *
        (e.vy * (VMAX / Real.sqrt (e.vx * e.vx + e.vy * e.vy))) = VMAX * VMAX := by
      field_simp
      nlinarith [hs, hpos]
    simpa using le_of_eq key
  · rw [if_neg h]
    exact not_lt.mp h

/-- `update` ends in `clampVel` on both boundary branches, so its result
satisfies the squared speed cap. -/
theorem update_speedSq_le (W H dt spd : ℝ) (wrap : Bool) (e : Entity) :
    (update W H dt spd wrap e).vx * (update W H dt spd wrap e).vx +
      (update W H dt spd wrap e).vy * (update W H dt spd wrap e).vy ≤
      VMAX * VMAX := by
  cases wrap with
  | true => exact clampVel_speedSq_le _
  | false => exact clampVel_speedSq_le _

/-- The first component of a `narrowPhase` result is either the untouched
first input (reject branch) or a `clampVel` image, so the squared speed cap
is preserved. -/
theorem narrowPhase_speedSq_le_fst (cfg : Config) (a b : Entity)
    (ha : a.vx * a.vx + a.vy * a.vy ≤ VMAX * VMAX) :
    ((narrowPhase cfg a b).1).vx * ((narrowPhase cfg a b).1).vx +
      ((narrowPhase cfg a b).1).vy * ((narrowPhase cfg a b).1).vy ≤ VMAX * VMAX := by
  unfold narrowPhase
  dsimp only
  split
  · exact ha
  · exact clampVel_speedSq_le _

/-- Same, for the second component. -/
theorem narrowPhase_speedSq_le_snd (cfg : Config) (a b : Entity)
    (hb : b.vx * b.vx + b.vy * b.vy ≤ VMAX * VMAX) :
    ((narrowPhase cfg a b).2).vx * ((narrowPhase cfg a b).2).vx +
      ((narrowPhase cfg a b).2).vy * ((narrowPhase cfg a b).2).vy ≤ VMAX * VMAX := by
  unfold narrowPhase
  dsimp only
  split
  · exact hb
  · exact clampVel_speedSq_le _

/-- One traced invocation preserves any pointwise property that both
`narrowPhase` components preserve. -/
theorem applyNarrow_forall (cfg : Config) (P : Entity → Prop)
    (h1 : ∀ a b, P a → P ((narrowPhase cfg a b).1))
    (h2 : ∀ a b, P b → P ((narrowPhase cfg a b).2))
    (es : List Entity) (hall : ∀ e ∈ es, P e) (p : ℕ × ℕ) :
    ∀ e ∈ applyNarrow cfg es p, P e := by
  intro e he
  unfold applyNarrow at he
  cases hga : es.get? p.1 with
  | none => rw [hga] at he; exact hall e he
  | some a =>
      cases hgb : es.get? p.2 with
      | none => rw [hga, hgb] at he; exact hall e he
      | some b =>
          rw [hga, hgb] at he
          simp only at he
          rcases List.mem_or_eq_of_mem_set he with he1 | rfl
          · rcases List.mem_or_eq_of_mem_set he1 with he2 | rfl
            · exact hall e he2
            · exact h1 a b (hall a (List.get?_mem hga))
          · exact h2 a b (hall b (List.get?_mem hgb))

/-- The collision fold preserves any pointwise property that both
`narrowPhase` components preserve. -/
theorem foldl_applyNarrow_forall (cfg : Config) (P : Entity → Prop)
    (h1 : ∀ a b, P a → P ((narrowPhase cfg a b).1))
    (h2 : ∀ a b, P b → P ((narrowPhase cfg a b).2)) :
    ∀ (ps : List (ℕ × ℕ)) (es : List Entity), (∀ e ∈ es, P e) →
      ∀ e ∈ ps.foldl (applyNarrow cfg) es, P e := by
  intro ps
  induction ps with
  | nil => intro es h e he; exact h e he
  | cons p ps ih =>
      intro es h e he
      rw [List.foldl_cons] at he
      exact ih _ (applyNarrow_forall cfg P h1 h2 es h p) e he

/-- C4: after any complete step every entity's speed is at most `VMAX`:
integration ends in `clampVel`, and every `narrowPhase` invocation either
leaves a velocity untouched or re-clamps it, so the cap survives the whole
collision fold. -/
theorem velocity_cap (cfg : Config) (dt : ℝ) (es : List Entity) :
    ∀ e ∈ step cfg dt es, Real.sqrt (e.vx * e.vx + e.vy * e.vy) ≤ VMAX := by
  intro e he
  unfold step handleCollisionsGrid at he
  have hsq : e.vx * e.vx + e.vy * e.vy ≤ VMAX * VMAX := by
    refine foldl_applyNarrow_forall cfg
      (fun e => e.vx * e.vx + e.vy * e.vy ≤ VMAX * VMAX)
      (fun a b ha => narrowPhase_speedSq_le_fst cfg a b ha)
      (fun a b hb => narrowPhase_speedSq_le_snd cfg a b hb)
      _ _ ?_ e he
    intro x hx
    obtain ⟨e0, _, rfl⟩ := List.mem_map.mp hx
    exact update_speedSq_le _ _ _ _ _ _
  calc Real.sqrt (e.vx * e.vx + e.vy * e.vy)
      ≤ Real.sqrt (VMAX * VMAX) := Real.sqrt_le_sqrt hsq
    _ = VMAX := by
        rw [show VMAX * VMAX = VMAX ^ 2 by ring, Real.sqrt_sq (by norm_num [VMAX])]

/-- `clampVel` never changes the id. -/
theorem clampVel_id (e : Entity) : (clampVel e).id = e.id := by
  unfold clampVel; dsimp only; split <;> rfl

/-- `clampVel` never changes the type index. -/
theorem clampVel_t (e : Entity) : (clampVel e).t = e.t := by
  unfold clampVel; dsimp only; split <;> rfl

/-- `clampVel` never changes the x coordinate. -/
theorem clampVel_x (e : Entity) : (clampVel e).x = e.x := by
  unfold clampVel; dsimp only; split <;> rfl

/-- `clampVel` never changes the y coordinate. -/
theorem clampVel_y (e : Entity) : (clampVel e).y = e.y := by
  unfold clampVel; dsimp only; split <;> rfl

/-- `clampVel` never changes the radius. -/
theorem clampVel_r (e : Entity) : (clampVel e).r = e.r := by
  unfold clampVel; dsimp only; split <;> rfl

/-- `clampVel` never changes the mass. -/
theorem clampVel_mass (e : Entity) : (clampVel e).mass = e.mass := by
  unfold clampVel; dsimp only; split <;> rfl

/-- `clampVel` never changes the side parameter. -/
theorem clampVel_side (e : Entity) : (clampVel e).side = e.side := by
  unfold clampVel; dsimp only; split <;> rfl

/-- `clampVel` never changes the base parameter. -/
theorem clampVel_base (e : Entity) : (clampVel e).base = e.base := by
  unfold clampVel; dsimp only; split <;> rfl

/-- The conversion step touches no field of either entity besides the type
index. -/
theorem convertPair_fields (a b : Entity) :
    ((convertPair a b).1.id = a.id ∧ (convertPair a b).1.x = a.x ∧
     (convertPair a b).1.y = a.y ∧ (convertPair a b).1.r = a.r ∧
     (convertPair a b).1.vx = a.vx ∧ (convertPair a b).1.vy = a.vy ∧
     (convertPair a b).1.mass = a.mass ∧ (convertPair a b).1.side = a.side ∧
     (convertPair a b).1.base = a.base) ∧
    ((convertPair a b).2.id = b.id ∧ (convertPair a b).2.x = b.x ∧
     (convertPair a b).2.y = b.y ∧ (convertPair a b).2.r = b.r ∧
     (convertPair a b).2.vx = b.vx ∧ (convertPair a b).2.vy = b.vy ∧
     (convertPair a b).2.mass = b.mass ∧ (convertPair a b).2.side = b.side ∧
     (convertPair a b).2.base = b.base) := by
  unfold convertPair
  dsimp only
  cases winnerOf (typeIdOf a.t) (typeIdOf b.t) with
  | none => simp
  | some w => by_cases hw : w = typeIdOf a.t <;> simp [hw]

/-- A whole `narrowPhase` invocation preserves id, radius, mass and the
derived shape parameters of both arguments (positions and velocities are
the only mutable physics fields, and the type index the only field touched
by conversion). -/
theorem narrowPhase_immutable_fields (cfg : Config) (a b : Entity) :
    (narrowPhase cfg a b).1.id = a.id ∧ (narrowPhase cfg a b).1.r = a.r ∧
    (narrowPhase cfg a b).1.mass = a.mass ∧ (narrowPhase cfg a b).1.side = a.side ∧
    (narrowPhase cfg a b).1.base = a.base ∧
    (narrowPhase cfg a b).2.id = b.id ∧ (narrowPhase cfg a b).2.r = b.r ∧
    (narrowPhase cfg a b).2.mass = b.mass ∧ (narrowPhase cfg a b).2.side = b.side ∧
    (narrowPhase cfg a b).2.base = b.base := by
  obtain ⟨⟨a1, -, -, a4, -, -, a7, a8, a9⟩, b1, -, -, b4, -, -, b7, b8, b9⟩ :=
    convertPair_fields a b
  unfold narrowPhase
  dsimp only
  split
  · exact ⟨rfl, rfl, rfl, rfl, rfl, rfl, rfl, rfl, rfl, rfl⟩
  · refine ⟨?_, ?_, ?_, ?_, ?_, ?_, ?_, ?_, ?_, ?_⟩ <;>
      simp [clampVel_id, clampVel_r, clampVel_mass, clampVel_side, clampVel_base] <;>
      split <;>
      simp [a1, a4, a7, a8, a9, b1, b4, b7, b8, b9]

/-- C9: on an overlapping pair with a decided winner, the conversion step
of `narrowPhase` rewrites exactly the loser's type index to the winner's
and nothing else: the conversion leaves every other field of both entities
(ids, positions, velocities, radii, masses, shape parameters) untouched,
undecided and equal-type pairs convert nothing, and the full `narrowPhase`
never changes ids, radii, masses or shape parameters, so positions and
velocities are modified only by the separate de-penetration and velocity
response steps. -/
theorem conversion_changes_only_loser_type (a b : Entity) :
    ((convertPair a b).1.id = a.id ∧ (convertPair a b).1.x = a.x ∧
     (convertPair a b).1.y = a.y ∧ (convertPair a b).1.r = a.r ∧
     (convertPair a b).1.vx = a.vx ∧ (convertPair a b).1.vy = a.vy ∧
     (convertPair a b).1.mass = a.mass ∧ (convertPair a b).1.side = a.side ∧
     (convertPair a b).1.base = a.base) ∧
    ((convertPair a b).2.id = b.id ∧ (convertPair a b).2.x = b.x ∧
     (convertPair a b).2.y = b.y ∧ (convertPair a b).2.r = b.r ∧
     (convertPair a b).2.vx = b.vx ∧ (convertPair a b).2.vy = b.vy ∧
     (convertPair a b).2.mass = b.mass ∧ (convertPair a b).2.side = b.side ∧
     (convertPair a b).2.base = b.base) ∧
    (winnerOf (typeIdOf a.t) (typeIdOf b.t) = none → convertPair a b = (a, b)) ∧
    (winnerOf (typeIdOf a.t) (typeIdOf b.t) = some (typeIdOf a.t) →
      (convertPair a b).1 = a ∧ (convertPair a b).2.t = a.t) ∧
    (∀ w, winnerOf (typeIdOf a.t) (typeIdOf b.t) = some w → w ≠ typeIdOf a.t →
      (convertPair a b).2 = b ∧ (convertPair a b).1.t = b.t) ∧
    (∀ cfg : Config,
      (narrowPhase cfg a b).1.id = a.id ∧ (narrowPhase cfg a b).1.r = a.r ∧
      (narrowPhase cfg a b).1.mass = a.mass ∧ (narrowPhase cfg a b).1.side = a.side ∧
      (narrowPhase cfg a b).1.base = a.base ∧
      (narrowPhase cfg a b).2.id = b.id ∧ (narrowPhase cfg a b).2.r = b.r ∧
      (narrowPhase cfg a b).2.mass = b.mass ∧ (narrowPhase cfg a b).2.side = b.side ∧
      (narrowPhase cfg a b).2.base = b.base) := by
  refine ⟨(convertPair_fields a b).1, (convertPair_fields a b).2, ?_, ?_, ?_,
    fun cfg => narrowPhase_immutable_fields cfg a b⟩
  · intro hnone; unfold convertPair; dsimp only; rw [hnone]
  · intro hsome; unfold convertPair; dsimp only; rw [hsome]; simp
  · intro w hsome hne; unfold convertPair; dsimp only; rw [hsome]; simp [hne]

/-- C9 witness: a concrete circle/triangle encounter, where circle wins:
the second entity's type index becomes the circle index and the first
entity is returned unchanged. -/
theorem conversion_changes_only_loser_type_witness :
    (convertPair (mkEntity 0 1 2 3 0 0 1) (mkEntity 2 4 2 3 0 0 2)).1 =
      mkEntity 0 1 2 3 0 0 1 ∧
    (convertPair (mkEntity 0 1 2 3 0 0 1) (mkEntity 2 4 2 3 0 0 2)).2.t =
      (mkEntity 0 1 2 3 0 0 1).t :=
  (conversion_changes_only_loser_type (mkEntity 0 1 2 3 0 0 1)
    (mkEntity 2 4 2 3 0 0 2)).2.2.2.1 (by decide)

/-- C8: the collision distance actually divided by is always positive (the
`|| 0.0001` guard replaces a zero square root), the exact-coincidence case
gets exactly the minimal nonzero distance 0.0001, and for entities with
positive radii and constructor masses the mass denominator `ma + mb` of the
elastic response is positive, so no division by zero occurs anywhere in
`narrowPhase`. -/
theorem narrowPhase_no_zero_divisors :
    (∀ d2 : ℝ, 0 < sqrtOrEps d2) ∧
    sqrtOrEps 0 = 0.0001 ∧
    (∀ a b : Entity, 0 < a.r → 0 < b.r → a.mass = a.r * a.r → b.mass = b.r * b.r →
      0 < a.mass + b.mass) := by
  refine ⟨?_, ?_, ?_⟩
  · intro d2
    unfold sqrtOrEps
    split
    · norm_num
    · rename_i h
      exact lt_of_le_of_ne (Real.sqrt_nonneg d2) (Ne.symm h)
  · unfold sqrtOrEps
    rw [if_pos Real.sqrt_zero]
  · intro a b hra hrb hma hmb
    rw [hma, hmb]
    positivity

/-- C8 witness: two concrete radius-5 constructor entities at coincident
centers: the substituted distance is 0.0001 and the mass denominator is
positive. -/
theorem narrowPhase_no_zero_divisors_witness :
    0 < (mkEntity 0 7 7 5 0 0 1).mass + (mkEntity 1 7 7 5 0 0 2).mass :=
  narrowPhase_no_zero_divisors.2.2 (mkEntity 0 7 7 5 0 0 1) (mkEntity 1 7 7 5 0 0 2)
    (by norm_num [mkEntity]) (by norm_num [mkEntity])
    (by simp [mkEntity]) (by simp [mkEntity])

/-- For a positive modulus and nonnegative dividend the JavaScript
remainder lies in `[0, m)`. -/
theorem jsRem_mem_Ico (x m : ℝ) (hm : 0 < m) (hx : 0 ≤ x) :
    0 ≤ jsRem x m ∧ jsRem x m < m := by
  unfold jsRem jsTrunc
  rw [if_pos (div_nonneg hx hm.le)]
  constructor
  · have h1 : (⌊x / m⌋ : ℝ) ≤ x / m := Int.floor_le _
    have h2 : m * (⌊x / m⌋ : ℝ) ≤ m * (x / m) := by
      exact mul_le_mul_of_nonneg_left h1 hm.le
    rw [mul_div_cancel₀ _ hm.ne'] at h2
    linarith
  · have h1 : x / m < (⌊x / m⌋ : ℝ) + 1 := Int.lt_floor_add_one _
    have h2 : m * (x / m) < m * ((⌊x / m⌋ : ℝ) + 1) := by
      exact mul_lt_mul_of_pos_left h1 hm
    rw [mul_div_cancel₀ _ hm.ne'] at h2
    nlinarith

/-- For a positive modulus the JavaScript remainder lies in `(-m, m)`. -/
theorem jsRem_bounds (x m : ℝ) (hm : 0 < m) : -m < jsRem x m ∧ jsRem x m < m := by
  by_cases hx : 0 ≤ x
  · obtain ⟨h1, h2⟩ := jsRem_mem_Ico x m hm hx
    exact ⟨by linarith, h2⟩
  · unfold jsRem jsTrunc
    have hq : ¬ (0 ≤ x / m) := by
      intro h
      exact hx (by nlinarith [mul_nonneg h hm.le, mul_div_cancel₀ x hm.ne'])
    rw [if_neg hq]
    have h1 : x / m ≤ (⌈x / m⌉ : ℝ) := Int.le_ceil _
    have h2 : (⌈x / m⌉ : ℝ) < x / m + 1 := Int.ceil_lt_add_one _
    have h3 : m * (x / m) = x := mul_div_cancel₀ _ hm.ne'
    constructor
    · nlinarith [mul_lt_mul_of_pos_left h2 hm]
    · nlinarith [mul_le_mul_of_nonneg_left h1 hm.le]

/-- The source's wrap helper lands in `[0, m)` for every real input when
the modulus is positive. -/
theorem mod_mem_Ico (x m : ℝ) (hm : 0 < m) : 0 ≤ mod x m ∧ mod x m < m := by
  unfold mod
  have h := jsRem_bounds x m hm
  exact jsRem_mem_Ico _ m hm (by linarith [h.1])

/-- In wrap mode, `update` leaves the position inside `[0,W) × [0,H)`. -/
theorem update_wrap_in_bounds (W H dt spd : ℝ) (hW : 0 < W) (hH : 0 < H) (e : Entity) :
    0 ≤ (update W H dt spd true e).x ∧ (update W H dt spd true e).x < W ∧
    0 ≤ (update W H dt spd true e).y ∧ (update W H dt spd true e).y < H := by
  unfold update
  dsimp only
  rw [if_pos rfl]
  rw [clampVel_x, clampVel_y]
  obtain ⟨hx1, hx2⟩ := mod_mem_Ico (e.x + e.vx * (dt * spd)) W hW
  obtain ⟨hy1, hy2⟩ := mod_mem_Ico (e.y + e.vy * (dt * spd)) H hH
  exact ⟨hx1, hx2, hy1, hy2⟩

/-- In wrap mode, both components of a `narrowPhase` result have their
positions re-wrapped into bounds (or are returned untouched). -/
theorem narrowPhase_wrap_in_bounds_fst (cfg : Config) (hwrap : cfg.wrap = true)
    (hW : 0 < cfg.W) (hH : 0 < cfg.H) (a b : Entity)
    (ha : 0 ≤ a.x ∧ a.x < cfg.W ∧ 0 ≤ a.y ∧ a.y < cfg.H) :
    0 ≤ (narrowPhase cfg a b).1.x ∧ (narrowPhase cfg a b).1.x < cfg.W ∧
    0 ≤ (narrowPhase cfg a b).1.y ∧ (narrowPhase cfg a b).1.y < cfg.H := by
  unfold narrowPhase
  dsimp only
  split
  · exact ha
  · rw [clampVel_x, clampVel_y]
    simp only [hwrap, if_true]
    exact ⟨(mod_mem_Ico _ _ hW).1, (mod_mem_Ico _ _ hW).2,
      (mod_mem_Ico _ _ hH).1, (mod_mem_Ico _ _ hH).2⟩

/-- Same, for the second component. -/
theorem narrowPhase_wrap_in_bounds_snd (cfg : Config) (hwrap : cfg.wrap = true)
    (hW : 0 < cfg.W) (hH : 0 < cfg.H) (a b : Entity)
    (hb : 0 ≤ b.x ∧ b.x < cfg.W ∧ 0 ≤ b.y ∧ b.y < cfg.H) :
    0 ≤ (narrowPhase cfg a b).2.x ∧ (narrowPhase cfg a b).2.x < cfg.W ∧
    0 ≤ (narrowPhase cfg a b).2.y ∧ (narrowPhase cfg a b).2.y < cfg.H := by
  unfold narrowPhase
  dsimp only
  split
  · exact hb
  · rw [clampVel_x, clampVel_y]
    simp only [hwrap, if_true]
    exact ⟨(mod_mem_Ico _ _ hW).1, (mod_mem_Ico _ _ hW).2,
      (mod_mem_Ico _ _ hH).1, (mod_mem_Ico _ _ hH).2⟩

/-- C2 (amended): in toroidal mode every entity's position lies in
`[0, width) × [0, height)` after any complete step (integration wraps every
position and every `narrowPhase` displacement is re-wrapped); in reflective
mode the bounds `radius ≤ x ≤ width - radius` (and likewise for y) hold
after the integration phase whenever the entity fits the arena, but not
necessarily after the collision pass, whose de-penetration displacement is
not re-clamped. -/
theorem boundary_containment_amended :
    (∀ (cfg : Config) (dt : ℝ) (es : List Entity), cfg.wrap = true →
      0 < cfg.W → 0 < cfg.H →
      ∀ e ∈ step cfg dt es, 0 ≤ e.x ∧ e.x < cfg.W ∧ 0 ≤ e.y ∧ e.y < cfg.H) ∧
    (∀ (W H dt spd : ℝ) (e : Entity), 2 * e.r ≤ W → 2 * e.r ≤ H →
      e.r ≤ (update W H dt spd false e).x ∧ (update W H dt spd false e).x ≤ W - e.r ∧
      e.r ≤ (update W H dt spd false e).y ∧ (update W H dt spd false e).y ≤ H - e.r) := by
  constructor
  · intro cfg dt es hwrap hW hH e he
    unfold step handleCollisionsGrid at he
    refine foldl_applyNarrow_forall cfg
      (fun e => 0 ≤ e.x ∧ e.x < cfg.W ∧ 0 ≤ e.y ∧ e.y < cfg.H)
      (fun a b ha => narrowPhase_wrap_in_bounds_fst cfg hwrap hW hH a b ha)
      (fun a b hb => narrowPhase_wrap_in_bounds_snd cfg hwrap hW hH a b hb)
      _ _ ?_ e he
    intro x hx
    obtain ⟨e0, -, rfl⟩ := List.mem_map.mp hx
    rw [hwrap]
    exact update_wrap_in_bounds cfg.W cfg.H dt cfg.spd hW hH e0
  · intro W H dt spd e h2W h2H
    unfold update
    dsimp only
    rw [if_neg (by simp)]
    rw [clampVel_x, clampVel_y]
    dsimp only
    refine ⟨?_, ?_, ?_, ?_⟩ <;> split_ifs <;> linarith

/-! Concrete configurations and entities used as witnesses and
counterexamples: an 80×40 reflective arena and a 40×40 toroidal arena with
cell size 40 (grid dimensions as `computeGridDims` yields them), populated
by radius-5 circle entities at rest. -/

noncomputable def cfgR : Config :=
  { W := 80, H := 40, CELL := 40, GW := 2, GH := 1, wrap := false, spd := 1 }

noncomputable def cfgW : Config :=
  { W := 40, H := 40, CELL := 40, GW := 1, GH := 1, wrap := true, spd := 1 }

noncomputable def eA : Entity := mkEntity 0 5 20 5 0 0 1

noncomputable def eB : Entity := mkEntity 0 11 20 5 0 0 2

noncomputable def eC : Entity := mkEntity 0 30 20 5 0 0 1

noncomputable def eD : Entity := mkEntity 0 38 20 5 0 0 2

/-- Range evaluation helper. -/
theorem range_one_eval : List.range 1 = [0] := rfl

/-- Range evaluation helper. -/
theorem range_two_eval : List.range 2 = [0, 1] := rfl

/-- Grid cells of `eA` in the reflective test arena. -/
theorem cells_eA : entityCells cfgR eA = [(0, 0)] := by
  norm_num [entityCells, cellRange, cfgR, eA, mkEntity, clampIdx]
  decide

/-- Grid cells of `eB` in the reflective test arena. -/
theorem cells_eB : entityCells cfgR eB = [(0, 0)] := by
  norm_num [entityCells, cellRange, cfgR, eB, mkEntity, clampIdx]
  decide

/-- Grid cells of `eC` in the reflective test arena. -/
theorem cells_eC : entityCells cfgR eC = [(0, 0)] := by
  norm_num [entityCells, cellRange, cfgR, eC, mkEntity, clampIdx]
  decide

/-- Grid cells of `eD` in the reflective test arena: it straddles the
boundary between the two grid cells. -/
theorem cells_eD : entityCells cfgR eD = [(0, 0), (1, 0)] := by
  norm_num [entityCells, cellRange, cfgR, eD, mkEntity, clampIdx]
  decide

/-- The grid built over the pair `eA`, `eB`: one shared bucket. -/
theorem grid_AB : buildGrid cfgR [eA, eB] = [((0, 0), [0, 1])] := by
  simp only [buildGrid, List.enum_cons, List.enum_nil, List.enumFrom_cons,
    List.enumFrom_nil, List.foldl_cons, List.foldl_nil, cells_eA, cells_eB]
  decide

/-- The grid built over the pair `eC`, `eD`: `eD` is duplicated into two
buckets. -/
theorem grid_CD : buildGrid cfgR [eC, eD] = [((0, 0), [0, 1]), ((1, 0), [1])] := by
  simp only [buildGrid, List.enum_cons, List.enum_nil, List.enumFrom_cons,
    List.enumFrom_nil, List.foldl_cons, List.foldl_nil, cells_eC, cells_eD]
  decide

/-- Entity ids of the `eA`/`eB` list, as read by the pair guard. -/
theorem idAt_AB : idAt [eA, eB] 0 = 1 ∧ idAt [eA, eB] 1 = 2 := by
  constructor <;> simp [idAt, eA, eB, mkEntity]

/-- The invocation trace over `eA`, `eB`: the overlapping pair is visited
once, in ascending id order. -/
theorem pairs_AB : collisionPairs cfgR [eA, eB] = [(0, 1)] := by
  simp only [collisionPairs, grid_AB]
  decide

/-- The invocation trace over `eC`, `eD`: because `eD` sits in two adjacent
buckets, the same unordered pair is visited twice. -/
theorem pairs_CD : collisionPairs cfgR [eC, eD] = [(0, 1), (0, 1)] := by
  simp only [collisionPairs, grid_CD]
  decide

/-- Guard extraction for one bucket/neighbor chunk of the invocation
trace. -/
theorem pairsChunk_guards (es : List Entity) (g : List ((ℤ × ℤ) × List ℕ))
    (bucket : List ℕ) (key : ℤ × ℤ) (p : ℕ × ℕ)
    (hp : p ∈ bucket.flatMap (fun ia => (gridGet g key).filterMap (fun ib =>
      if ia = ib then none
      else if idAt es ia > idAt es ib then none
      else some (ia, ib)))) :
    p.1 ≠ p.2 ∧ idAt es p.1 ≤ idAt es p.2 ∧ p.1 ∈ bucket ∧ ∃ kb ∈ g, p.2 ∈ kb.2 := by
  rw [List.mem_flatMap] at hp
  obtain ⟨ia, hia, hp⟩ := hp
  rw [List.mem_filterMap] at hp
  obtain ⟨ib, hib, hp⟩ := hp
  split at hp
  · exact absurd hp (by simp)
  · split at hp
    · exact absurd hp (by simp)
    · rename_i hne hid
      rw [Option.some_inj] at hp
      subst hp
      refine ⟨hne, not_lt.mp hid, hia, ?_⟩
      unfold gridGet at hib
      rcases hfind : g.find? (fun kb => kb.1 == key) with _ | kb'
      · rw [hfind] at hib
        exact absurd hib (List.not_mem_nil _)
      · rw [hfind] at hib
        exact ⟨kb', List.mem_of_find?_eq_some hfind, hib⟩

/-- Every pair in the invocation trace passed the two guards: distinct
list indices and no id inversion; both indices come from grid buckets. -/
theorem collisionPairs_guards (cfg : Config) (es : List Entity) :
    ∀ p ∈ collisionPairs cfg es,
      p.1 ≠ p.2 ∧ idAt es p.1 ≤ idAt es p.2 ∧
      (∃ kb ∈ buildGrid cfg es, p.1 ∈ kb.2) ∧
      (∃ kb ∈ buildGrid cfg es, p.2 ∈ kb.2) := by
  intro p hp
  unfold collisionPairs at hp
  dsimp only at hp
  rw [List.mem_flatMap] at hp
  obtain ⟨kb, hkb, hp⟩ := hp
  rw [List.mem_flatMap] at hp
  obtain ⟨dy, hdy, hp⟩ := hp
  rw [List.mem_flatMap] at hp
  obtain ⟨dx, hdx, hp⟩ := hp
  split at hp
  · split at hp
    · exact absurd hp (List.not_mem_nil p)
    · obtain ⟨h1, h2, h3, h4⟩ := pairsChunk_guards es _ _ _ p hp
      exact ⟨h1, h2, ⟨kb, hkb, h3⟩, h4⟩
  · split at hp
    · exact absurd hp (List.not_mem_nil p)
    · obtain ⟨h1, h2, h3, h4⟩ := pairsChunk_guards es _ _ _ p hp
      exact ⟨h1, h2, ⟨kb, hkb, h3⟩, h4⟩

/-- `gridInsert` only adds the inserted index to buckets. -/
theorem gridInsert_bound (g : List ((ℤ × ℤ) × List ℕ)) (key : ℤ × ℤ) (j : ℕ)
    (P : ℕ → Prop) (hg : ∀ kb ∈ g, ∀ i ∈ kb.2, P i) (hj : P j) :
    ∀ kb ∈ gridInsert g key j, ∀ i ∈ kb.2, P i := by
  intro kb hkb i hi
  unfold gridInsert at hkb
  split at hkb
  · rw [List.mem_map] at hkb
    obtain ⟨kb0, hkb0, rfl⟩ := hkb
    split at hi
    · rcases List.mem_append.mp hi with h | h
      · exact hg kb0 hkb0 i h
      · rw [List.mem_singleton] at h
        subst h
        exact hj
    · exact hg kb0 hkb0 i hi
  · rcases List.mem_append.mp hkb with h | h
    · exact hg kb h i hi
    · rw [List.mem_singleton] at h
      subst h
      rw [List.mem_singleton] at hi
      subst hi
      exact hj

/-- The cell-insertion fold only adds the inserted index to buckets. -/
theorem foldl_gridInsert_bound (j : ℕ) (P : ℕ → Prop) (hj : P j) :
    ∀ (keys : List (ℤ × ℤ)) (g : List ((ℤ × ℤ) × List ℕ)),
      (∀ kb ∈ g, ∀ i ∈ kb.2, P i) →
      ∀ kb ∈ keys.foldl (fun g' key => gridInsert g' key j) g, ∀ i ∈ kb.2, P i := by
  intro keys
  induction keys with
  | nil => intro g hg; exact hg
  | cons key keys ih =>
      intro g hg
      rw [List.foldl_cons]
      exact ih _ (gridInsert_bound g key j P hg hj)

/-- Every index in any bucket of the rebuilt grid addresses an entity of
the list. -/
theorem buildGrid_bound (cfg : Config) (es : List Entity) :
    ∀ kb ∈ buildGrid cfg es, ∀ i ∈ kb.2, i < es.length := by
  unfold buildGrid
  suffices h : ∀ (l : List (ℕ × Entity)) (g : List ((ℤ × ℤ) × List ℕ)),
      (∀ kb ∈ g, ∀ i ∈ kb.2, i < es.length) →
      (∀ ie ∈ l, ie.1 < es.length) →
      ∀ kb ∈ l.foldl
        (fun g ie => (entityCells cfg ie.2).foldl (fun g' key => gridInsert g' key ie.1) g) g,
        ∀ i ∈ kb.2, i < es.length by
    refine h es.enum [] (by simp) ?_
    intro ie hie
    have := List.mem_enumFrom hie
    simpa using this.2.1
  intro l
  induction l with
  | nil => intro g hg _; exact hg
  | cons ie l ih =>
      intro g hg hl
      rw [List.foldl_cons]
      exact ih _
        (foldl_gridInsert_bound ie.1 (fun i => i < es.length)
          (hl ie (List.mem_cons_self ie l)) _ g hg)
        (fun x hx => hl x (List.mem_cons_of_mem ie hx))

/-- With pairwise distinct entity ids, distinct valid indices read distinct
ids. -/
theorem idAt_inj (es : List Entity) (hnd : (es.map Entity.id).Nodup)
    (i j : ℕ) (hi : i < es.length) (hj : j < es.length) (hij : i ≠ j) :
    idAt es i ≠ idAt es j := by
  have hi' : i < (es.map Entity.id).length := by simpa using hi
  have hj' : j < (es.map Entity.id).length := by simpa using hj
  have hgi : idAt es i = (es.map Entity.id).get ⟨i, hi'⟩ := by
    rw [idAt, List.get?_eq_get hi, List.get_map]
    rfl
  have hgj : idAt es j = (es.map Entity.id).get ⟨j, hj'⟩ := by
    rw [idAt, List.get?_eq_get hj, List.get_map]
    rfl
  rw [hgi, hgj]
  intro heq
  exact hij (Fin.val_eq_of_eq (hnd.get_inj_iff.mp heq))

/-- C1 (amended): within one collision pass the id guard admits each pair
only with the smaller id first — with pairwise distinct ids no unordered
pair is ever visited in both orientations — but a pair spanning several
shared or adjacent buckets may be handed to `narrowPhase` more than once
in that single orientation. -/
theorem pair_resolution_order_amended :
    ∀ (cfg : Config) (es : List Entity),
      (∀ p ∈ collisionPairs cfg es, p.1 ≠ p.2 ∧ idAt es p.1 ≤ idAt es p.2) ∧
      ((es.map Entity.id).Nodup →
        ∀ p ∈ collisionPairs cfg es,
          idAt es p.1 < idAt es p.2 ∧ (p.2, p.1) ∉ collisionPairs cfg es) := by
  intro cfg es
  constructor
  · intro p hp
    obtain ⟨h1, h2, -, -⟩ := collisionPairs_guards cfg es p hp
    exact ⟨h1, h2⟩
  · intro hnd p hp
    obtain ⟨h1, h2, ⟨kb1, hkb1, hm1⟩, ⟨kb2, hkb2, hm2⟩⟩ :=
      collisionPairs_guards cfg es p hp
    have hlt1 := buildGrid_bound cfg es kb1 hkb1 p.1 hm1
    have hlt2 := buildGrid_bound cfg es kb2 hkb2 p.2 hm2
    have hstrict : idAt es p.1 < idAt es p.2 :=
      lt_of_le_of_ne h2 (idAt_inj es hnd p.1 p.2 hlt1 hlt2 h1)
    refine ⟨hstrict, ?_⟩
    intro hrev
    obtain ⟨-, h2', -, -⟩ := collisionPairs_guards cfg es (p.2, p.1) hrev
    exact absurd h2' (not_le.mpr hstrict)

/-- C1 witness: in the `eC`/`eD` world the visited pair is strictly
id-ordered and its reverse orientation is never visited. -/
theorem pair_resolution_order_amended_witness :
    idAt [eC, eD] 0 < idAt [eC, eD] 1 ∧ (1, 0) ∉ collisionPairs cfgR [eC, eD] := by
  have h := (pair_resolution_order_amended cfgR [eC, eD]).2
    (by simp [eC, eD, mkEntity])
    (0, 1) (by rw [pairs_CD]; decide)
  exact h

/-- C1 counterexample: the overlapping pair `eC`, `eD` (squared center
distance 64 against squared contact distance 100) is handed to
`narrowPhase` twice within one collision pass, because `eD` straddles two
adjacent grid cells: the id order fixes the orientation but does not
deduplicate across buckets. -/
theorem pair_resolution_counterexample :
    (collisionPairs cfgR [eC, eD]).count (0, 1) = 2 ∧
    (periodicDelta cfgR eC.x eC.y eD.x eD.y).1 * (periodicDelta cfgR eC.x eC.y eD.x eD.y).1 +
      (periodicDelta cfgR eC.x eC.y eD.x eD.y).2 *
        (periodicDelta cfgR eC.x eC.y eD.x eD.y).2 ≤
      (eC.r + eD.r) * (eC.r + eD.r) := by
  constructor
  · rw [pairs_CD]
    decide
  · norm_num [periodicDelta, cfgR, eC, eD, mkEntity]

/-- The resting entity `eA` is unchanged by reflective integration. -/
theorem update_eA : update cfgR.W cfgR.H 0 cfgR.spd cfgR.wrap eA = eA := by
  norm_num [update, clampVel, eA, mkEntity, VMAX,
    show cfgR.W = (80:ℝ) from rfl, show cfgR.H = (40:ℝ) from rfl,
    show cfgR.spd = (1:ℝ) from rfl, show cfgR.wrap = false from rfl]

/-- The resting entity `eB` is unchanged by reflective integration. -/
theorem update_eB : update cfgR.W cfgR.H 0 cfgR.spd cfgR.wrap eB = eB := by
  norm_num [update, clampVel, eB, mkEntity, VMAX,
    show cfgR.W = (80:ℝ) from rfl, show cfgR.H = (40:ℝ) from rfl,
    show cfgR.spd = (1:ℝ) from rfl, show cfgR.wrap = false from rfl]

/-- Integration fixes the `eA`/`eB` world pointwise. -/
theorem map_update_AB :
    List.map (update cfgR.W cfgR.H 0 cfgR.spd cfgR.wrap) [eA, eB] = [eA, eB] := by
  rw [List.map_cons, List.map_cons, List.map_nil, update_eA, update_eB]

/-- Square-root evaluation at the test distance. -/
theorem sqrt36 : Real.sqrt 36 = 6 := by
  rw [show (36:ℝ) = 6 ^ 2 by norm_num, Real.sqrt_sq (by norm_num : (0:ℝ) ≤ 6)]

/-- The equal-type pair converts nothing. -/
theorem convAB : convertPair eA eB = (eA, eB) := rfl

/-- Full narrow-phase evaluation on the overlapping resting pair: each is
pushed half the slopped overlap along the collision normal, with no
velocity change (both at rest). -/
theorem narrowAB :
    narrowPhase cfgR eA eB = ({ eA with x := 2.9995 }, { eB with x := 13.0005 }) := by
  unfold narrowPhase
  dsimp only
  simp only [convAB]
  norm_num [periodicDelta, sqrtOrEps, clampVel, EPS, REST, VMAX,
    eA, eB, mkEntity, sqrt36, max_def,
    show cfgR.W = (80:ℝ) from rfl, show cfgR.H = (40:ℝ) from rfl,
    show cfgR.wrap = false from rfl]

/-- The complete step on the overlapping resting pair in the reflective
arena. -/
theorem stepAB :
    step cfgR 0 [eA, eB] = [{ eA with x := 2.9995 }, { eB with x := 13.0005 }] := by
  unfold step handleCollisionsGrid
  rw [map_update_AB, pairs_AB, List.foldl_cons, List.foldl_nil]
  unfold applyNarrow
  simp only [List.get?_cons_zero, List.get?_cons_succ, narrowAB]
  rfl

/-- C2 counterexample: in the reflective arena, one complete step of the
overlapping resting pair leaves the first entity at `x = 2.9995` with
radius 5 — the de-penetration displacement of the collision pass pushed it
past the `radius ≤ x` bound, because no wall re-clamp runs after
`narrowPhase` in reflective mode. -/
theorem boundary_containment_counterexample :
    cfgR.wrap = false ∧
    ((step cfgR 0 [eA, eB]).getD 0 eA).x < ((step cfgR 0 [eA, eB]).getD 0 eA).r := by
  refine ⟨rfl, ?_⟩
  rw [stepAB]
  norm_num [List.getD, eA, mkEntity]

/-- The resting entity `eA` is unchanged by toroidal integration. -/
theorem update_eA_W : update cfgW.W cfgW.H 0 cfgW.spd cfgW.wrap eA = eA := by
  norm_num [update, clampVel, mod, jsRem, jsTrunc, eA, mkEntity, VMAX,
    show cfgW.W = (40:ℝ) from rfl, show cfgW.H = (40:ℝ) from rfl,
    show cfgW.spd = (1:ℝ) from rfl, show cfgW.wrap = true from rfl]

/-- Grid cells of `eA` in the toroidal test arena. -/
theorem cells_eA_W : entityCells cfgW eA = [(0, 0)] := by
  norm_num [entityCells, cellRange, cfgW, eA, mkEntity, modZ]
  decide

/-- The grid built over the singleton toroidal world. -/
theorem grid_W : buildGrid cfgW [eA] = [((0, 0), [0])] := by
  simp only [buildGrid, List.enum_cons, List.enum_nil, List.enumFrom_cons,
    List.enumFrom_nil, List.foldl_cons, List.foldl_nil, cells_eA_W]
  decide

/-- No pair is visited in the singleton toroidal world (the entity meets
only itself in every wrapped neighbor cell). -/
theorem pairs_W : collisionPairs cfgW [eA] = [] := by
  simp only [collisionPairs, grid_W]
  decide

/-- The complete step fixes the singleton toroidal world. -/
theorem stepW : step cfgW 0 [eA] = [eA] := by
  unfold step handleCollisionsGrid
  rw [List.map_cons, List.map_nil, update_eA_W, pairs_W, List.foldl_nil]

/-- C2 witness: in the toroidal world the stepped entity's position lies
in `[0, 40) × [0, 40)`, and in the reflective arena the integrated resting
entity satisfies the radius bounds. -/
theorem boundary_containment_witness :
    (0 ≤ ((step cfgW 0 [eA]).getD 0 eA).x ∧
     ((step cfgW 0 [eA]).getD 0 eA).x < cfgW.W ∧
     0 ≤ ((step cfgW 0 [eA]).getD 0 eA).y ∧
     ((step cfgW 0 [eA]).getD 0 eA).y < cfgW.H) ∧
    (eA.r ≤ (update 80 40 0 1 false eA).x ∧
     (update 80 40 0 1 false eA).x ≤ 80 - eA.r ∧
     eA.r ≤ (update 80 40 0 1 false eA).y ∧
     (update 80 40 0 1 false eA).y ≤ 40 - eA.r) := by
  constructor
  · have hmem : (step cfgW 0 [eA]).getD 0 eA ∈ step cfgW 0 [eA] := by
      rw [stepW]
      simp [List.getD]
    exact boundary_containment_amended.1 cfgW 0 [eA] rfl
      (by norm_num [cfgW]) (by norm_num [cfgW]) _ hmem
  · exact boundary_containment_amended.2 80 40 0 1 eA
      (by norm_num [eA, mkEntity]) (by norm_num [eA, mkEntity])

/-- C4 witness: the stepped entity of the singleton toroidal world
satisfies the speed cap. -/
theorem velocity_cap_witness :
    Real.sqrt (((step cfgW 0 [eA]).getD 0 eA).vx * ((step cfgW 0 [eA]).getD 0 eA).vx +
      ((step cfgW 0 [eA]).getD 0 eA).vy * ((step cfgW 0 [eA]).getD 0 eA).vy) ≤ VMAX := by
  have hmem : (step cfgW 0 [eA]).getD 0 eA ∈ step cfgW 0 [eA] := by
    rw [stepW]
    simp [List.getD]
  exact velocity_cap cfgW 0 [eA] _ hmem

end RPS
